import Mathlib

/-!
Verification of the attribute-to-property synchronization core of the
`spryker-nos` repository against its natural-language specification.

The development shallowly embeds the TypeScript sources:
  - `src/attributable.ts` (the unnamed source file): the attribute binder
    (`initializeAttributable`), the five per-kind property descriptors, and
    the `attributable` / `attribute` decorators;
  - `src/util.ts`: the name normalizer `toKebabCase` / `mustKebabCase`.

Modelling conventions:
  - JavaScript numbers are modelled as integers (`Int`); the code only
    encodes and decodes decimal integer text.
  - JSON-representable data is the inductive `Json`; `JSON.stringify` and
    `JSON.parse` (platform builtins used by the array/object descriptors)
    are modelled by `jsonStringify` / `jsonParse` below.  The parser handles
    the exact grammar the encoder emits (no whitespace skipping, integer
    numerals, the common escape sequences); object members are kept as an
    ordered pair list.
  - Exception messages are not modelled, only the kind of error.
  - The element attribute map (from the out-of-scope `Component` base
    class) is an association list of attribute name to string value,
    with presence semantics, exactly as the spec's
    "primitive key-value store" boundary describes.
-/

/-- The error kinds raised by the embedded code: `TypeError`,
`JSON.parse`'s parse failure, and the `DOMException` with name
SyntaxError thrown by the name normalizer. -/
inductive JsError where
  | typeError
  | parseError
  | namingError
  deriving DecidableEq, Repr

/-- JSON-representable data, the payloads of Array and PlainObject kind
attributes.  Object members are an ordered list of key-value pairs. -/
inductive Json where
  | null
  | bool (b : Bool)
  | num (n : Int)
  | str (s : String)
  | arr (xs : List Json)
  | obj (fs : List (String × Json))

/-- `true` exactly on `Json.arr` values; the `Array.isArray` test used by
the array and object descriptors. -/
def Json.isArr : Json → Bool
  | .arr _ => true
  | _ => false

/-- `true` exactly on `Json.obj` values. -/
def Json.isObj : Json → Bool
  | .obj _ => true
  | _ => false

/-! ### Decimal digit strings

`natToDigits` is the standard decimal numeral writer (the digits
`JSON.stringify` and string coercion produce for integers); `parseDigits`
is the greedy decimal reader used by the number parser. -/

/-- The character for a decimal digit value. -/
def digitChar (n : Nat) : Char := Char.ofNat (48 + n)

/-- Worker for `natToDigits`, structurally recursive on a fuel bound so
that the definition computes by kernel reduction. -/
def natToDigitsAux : Nat → Nat → List Char
  | 0, _ => []
  | fuel + 1, n =>
      if n < 10 then [digitChar n]
      else natToDigitsAux fuel (n / 10) ++ [digitChar (n % 10)]

/-- Decimal numeral of a natural number, most significant digit first. -/
def natToDigits (n : Nat) : List Char := natToDigitsAux (n + 1) n

theorem natToDigitsAux_congr (f : Nat) :
    ∀ g n, n < f → n < g → natToDigitsAux f n = natToDigitsAux g n := by
  induction f with
  | zero => intro g n h1 _; omega
  | succ f ihf =>
      intro g n h1 h2
      cases g with
      | zero => omega
      | succ g =>
          simp only [natToDigitsAux]
          split
          · rfl
          · rw [ihf g (n / 10) (by omega) (by omega)]

theorem natToDigits_eq (n : Nat) :
    natToDigits n = if n < 10 then [digitChar n]
      else natToDigits (n / 10) ++ [digitChar (n % 10)] := by
  show natToDigitsAux (n + 1) n = _
  rw [natToDigitsAux]
  split
  · rfl
  · rw [natToDigitsAux_congr n (n / 10 + 1) (n / 10) (by omega) (by omega)]
    rfl

/-- Signed decimal numeral of an integer (the text `JSON.stringify` and
JavaScript string coercion produce for an integer). -/
def intRepr (n : Int) : List Char :=
  if n < 0 then '-' :: natToDigits n.natAbs else natToDigits n.toNat

/-- Greedily consume decimal digits, accumulating their value. -/
def parseDigits : List Char → Nat → Nat × List Char
  | [], acc => (acc, [])
  | c :: rest, acc =>
      if c.isDigit then parseDigits rest (10 * acc + (c.toNat - 48))
      else (acc, c :: rest)

/-- Whether a character list starts with a decimal digit. -/
def headDigit : List Char → Bool
  | [] => false
  | c :: _ => c.isDigit

/-- One step of accumulating a decimal digit. -/
def digitStep (a : Nat) (c : Char) : Nat := 10 * a + (c.toNat - 48)

/-- Value of a digit list, most significant first. -/
def digitsToNat (cs : List Char) : Nat := cs.foldl digitStep 0

/-- Read a nonempty digit prefix as a natural number. -/
def parseNumber : List Char → Option (Nat × List Char)
  | [] => none
  | c :: rest =>
      if c.isDigit then some (parseDigits rest (c.toNat - 48)) else none

theorem digitChar_isDigit (n : Nat) (h : n < 10) : (digitChar n).isDigit = true := by
  interval_cases n <;> decide

theorem digitChar_toNat (n : Nat) (h : n < 10) : (digitChar n).toNat - 48 = n := by
  interval_cases n <;> decide

theorem isDigit_ne_of_not (c d : Char) (h : c.isDigit = true) (hd : d.isDigit = false) :
    c ≠ d := by
  intro rfl2
  rw [rfl2] at h
  simp [hd] at h

theorem natToDigits_ne_nil (n : Nat) : natToDigits n ≠ [] := by
  rw [natToDigits_eq]
  split <;> simp

theorem natToDigits_all_digit (n : Nat) : (natToDigits n).all Char.isDigit = true := by
  rw [natToDigits_eq]
  split
  · simp [digitChar_isDigit n (by omega)]
  · have ih := natToDigits_all_digit (n / 10)
    simp only [List.all_append, ih, Bool.true_and, List.all_cons, List.all_nil]
    simp [digitChar_isDigit (n % 10) (Nat.mod_lt _ (by omega))]
termination_by n
decreasing_by exact Nat.div_lt_self (by omega) (by omega)

theorem foldl_digitStep_natToDigits (n a : Nat) :
    (natToDigits n).foldl digitStep a = a * 10 ^ (natToDigits n).length + n := by
  rw [natToDigits_eq]
  split
  · simp [digitStep, digitChar_toNat n (by omega)]
    ring
  · have ih := foldl_digitStep_natToDigits (n / 10) a
    rw [List.foldl_append, ih]
    simp only [List.foldl_cons, List.foldl_nil, List.length_append, List.length_cons,
      List.length_nil]
    rw [digitStep, digitChar_toNat (n % 10) (Nat.mod_lt _ (by omega))]
    have hmod := Nat.div_add_mod n 10
    have hpow : a * 10 ^ ((natToDigits (n / 10)).length + (0 + 1)) =
        a * 10 ^ (natToDigits (n / 10)).length * 10 := by
      rw [Nat.zero_add, pow_succ]
      ring
    omega
termination_by n
decreasing_by exact Nat.div_lt_self (by omega) (by omega)

theorem parseDigits_stop (s : List Char) (a : Nat) (h : headDigit s = false) :
    parseDigits s a = (a, s) := by
  cases s with
  | nil => rfl
  | cons c rest =>
      simp only [headDigit] at h
      simp [parseDigits, h]

theorem parseDigits_all (cs : List Char) (rest : List Char) (acc : Nat)
    (h : cs.all Char.isDigit = true) :
    parseDigits (cs ++ rest) acc = parseDigits rest (cs.foldl digitStep acc) := by
  induction cs generalizing acc with
  | nil => rfl
  | cons c cs ih =>
      simp only [List.all_cons, Bool.and_eq_true] at h
      simp [parseDigits, h.1, ih _ h.2, digitStep]

theorem parseNumber_eq (cs rest : List Char) (h₁ : cs ≠ [])
    (h₂ : cs.all Char.isDigit = true) (h₃ : headDigit rest = false) :
    parseNumber (cs ++ rest) = some (digitsToNat cs, rest) := by
  cases cs with
  | nil => exact absurd rfl h₁
  | cons c cs =>
      simp only [List.all_cons, Bool.and_eq_true] at h₂
      simp only [List.cons_append, parseNumber, h₂.1, if_true]
      rw [parseDigits_all cs rest _ h₂.2, parseDigits_stop rest _ h₃]
      simp [digitsToNat, digitStep]

theorem parseNumber_natToDigits (n : Nat) (rest : List Char)
    (h : headDigit rest = false) :
    parseNumber (natToDigits n ++ rest) = some (n, rest) := by
  rw [parseNumber_eq _ _ (natToDigits_ne_nil n) (natToDigits_all_digit n) h]
  have := foldl_digitStep_natToDigits n 0
  simp only [digitsToNat, this, Nat.zero_mul, Nat.zero_add]

/-! ### JSON string escaping -/

/-- Escape a single character for a JSON string literal (the escapes
`JSON.stringify` emits for quote, backslash and common control chars). -/
def escChar (c : Char) : List Char :=
  if c = '"' then ['\\', '"']
  else if c = '\\' then ['\\', '\\']
  else if c = '\n' then ['\\', 'n']
  else if c = '\t' then ['\\', 't']
  else if c = '\r' then ['\\', 'r']
  else [c]

/-- Decode a JSON escape character. -/
def unescape (c : Char) : Option Char :=
  if c = '"' then some '"'
  else if c = '\\' then some '\\'
  else if c = '/' then some '/'
  else if c = 'n' then some '\n'
  else if c = 't' then some '\t'
  else if c = 'r' then some '\r'
  else if c = 'b' then some (Char.ofNat 8)
  else if c = 'f' then some (Char.ofNat 12)
  else none

/-- Encoded JSON string literal (opening quote, escaped content, closing
quote). -/
def encStrChars (s : String) : List Char := '"' :: (s.data.flatMap escChar ++ ['"'])

/-- Parse the body of a JSON string literal up to and including the closing
quote, returning the decoded content and the remaining input. -/
def parseStringBody : List Char → Option (List Char × List Char)
  | [] => none
  | c :: rest =>
      if c = '"' then some ([], rest)
      else if c = '\\' then
        match rest with
        | [] => none
        | e :: rest' =>
            match unescape e with
            | none => none
            | some u =>
                match parseStringBody rest' with
                | none => none
                | some (s, r) => some (u :: s, r)
      else
        match parseStringBody rest with
        | none => none
        | some (s, r) => some (c :: s, r)

theorem parseStringBody_roundtrip (cs rest : List Char) :
    parseStringBody (cs.flatMap escChar ++ '"' :: rest) = some (cs, rest) := by
  induction cs with
  | nil =>
      rw [List.flatMap_nil, List.nil_append, parseStringBody.eq_def]
      simp
  | cons c cs ih =>
      rw [List.flatMap_cons]
      by_cases h1 : c = '"'
      · subst h1
        simp only [escChar, if_true, List.cons_append, List.append_assoc]
        rw [parseStringBody.eq_def]
        simp [unescape, ih]
      · by_cases h2 : c = '\\'
        · subst h2
          simp only [escChar, if_true, List.cons_append, List.append_assoc]
          rw [parseStringBody.eq_def]
          simp [unescape, ih]
        · by_cases h3 : c = '\n'
          · subst h3
            simp only [escChar, if_true, List.cons_append, List.append_assoc]
            rw [parseStringBody.eq_def]
            simp [unescape, ih]
          · by_cases h4 : c = '\t'
            · subst h4
              simp only [escChar, if_true, List.cons_append, List.append_assoc]
              rw [parseStringBody.eq_def]
              simp [unescape, ih]
            · by_cases h5 : c = '\r'
              · subst h5
                simp only [escChar, if_true, List.cons_append, List.append_assoc]
                rw [parseStringBody.eq_def]
                simp [unescape, ih]
              · simp only [escChar, h1, h2, h3, h4, h5, if_false, List.singleton_append]
                rw [parseStringBody.eq_def]
                simp [h1, h2, ih]

/-! ### JSON encoding (the model of `JSON.stringify`) -/

mutual

/-- Character encoding of a JSON value, exactly the text `JSON.stringify`
produces (no whitespace, members in list order). -/
def encChars : Json → List Char
  | .null => ['n', 'u', 'l', 'l']
  | .bool b => if b then ['t', 'r', 'u', 'e'] else ['f', 'a', 'l', 's', 'e']
  | .num n => intRepr n
  | .str s => encStrChars s
  | .arr [] => ['[', ']']
  | .arr (x :: xs) => '[' :: (encChars x ++ encItems xs ++ [']'])
  | .obj [] => ['\x7b', '\x7d']
  | .obj ((k, v) :: ms) =>
      '\x7b' :: (encStrChars k ++ ':' :: encChars v ++ encMems ms ++ ['\x7d'])

/-- Encoding of the remaining array items, each preceded by a comma. -/
def encItems : List Json → List Char
  | [] => []
  | x :: xs => ',' :: (encChars x ++ encItems xs)

/-- Encoding of the remaining object members, each preceded by a comma. -/
def encMems : List (String × Json) → List Char
  | [] => []
  | (k, v) :: ms => ',' :: (encStrChars k ++ ':' :: encChars v ++ encMems ms)

end

/-- Full JSON text of a value, the model of `JSON.stringify`. -/
def jsonStringify (v : Json) : String := String.mk (encChars v)

/-! ### Fuel bounds for the parser -/

mutual

/-- Fuel needed by `parseVal` to parse the encoding of a value. -/
def sizeJ : Json → Nat
  | .arr [] => 1
  | .arr (x :: xs) => 1 + sizeJ x + itemsSize xs
  | .obj [] => 1
  | .obj (m :: ms) => 2 + sizeJ m.2 + memsSize ms
  | _ => 1

/-- Fuel needed by `parseCommaItems` for the remaining array items. -/
def itemsSize : List Json → Nat
  | [] => 1
  | x :: xs => 1 + sizeJ x + itemsSize xs

/-- Fuel needed by `parseCommaMembers` for the remaining object members. -/
def memsSize : List (String × Json) → Nat
  | [] => 1
  | m :: ms => 2 + sizeJ m.2 + memsSize ms

end

theorem sizeJ_pos (v : Json) : 1 ≤ sizeJ v := by
  cases v with
  | arr xs => cases xs <;> simp only [sizeJ] <;> omega
  | obj ms =>
      cases ms with
      | nil => simp only [sizeJ]; omega
      | cons m ms => rcases m with ⟨k, v⟩; simp only [sizeJ]; omega
  | null => simp only [sizeJ]; omega
  | bool b => simp only [sizeJ]; omega
  | num n => simp only [sizeJ]; omega
  | str s => simp only [sizeJ]; omega

/-! ### JSON parsing (the model of `JSON.parse`) -/

/-- Parse a JSON integer numeral (optional minus sign, digits). -/
def parseNumTok : List Char → Option (Json × List Char)
  | [] => none
  | c :: rest =>
      if c = '-' then
        match parseNumber rest with
        | some (m, r) => some (.num (-(m : Int)), r)
        | none => none
      else
        match parseNumber (c :: rest) with
        | some (m, r) => some (.num ((m : Int)), r)
        | none => none

mutual

/-- Parse a single JSON value.  The `Nat` argument is recursion fuel; any
fuel of at least `sizeJ` of the parsed value suffices. -/
def parseVal : Nat → List Char → Option (Json × List Char)
  | 0, _ => none
  | f + 1, s =>
      match s with
      | [] => none
      | c :: rest =>
          if c = 'n' then
            if rest.take 3 = ['u', 'l', 'l'] then some (.null, rest.drop 3) else none
          else if c = 't' then
            if rest.take 3 = ['r', 'u', 'e'] then some (.bool true, rest.drop 3) else none
          else if c = 'f' then
            if rest.take 4 = ['a', 'l', 's', 'e'] then some (.bool false, rest.drop 4)
            else none
          else if c = '"' then
            match parseStringBody rest with
            | some (cs, r) => some (.str (String.mk cs), r)
            | none => none
          else if c = '[' then
            if rest.head? = some ']' then some (.arr [], rest.tail)
            else
              match parseVal f rest with
              | some (v, r) =>
                  match parseCommaItems f r with
                  | some (vs, r') => some (.arr (v :: vs), r')
                  | none => none
              | none => none
          else if c = '\x7b' then
            if rest.head? = some '\x7d' then some (.obj [], rest.tail)
            else
              match parseMember f rest with
              | some (m, r) =>
                  match parseCommaMembers f r with
                  | some (ms, r') => some (.obj (m :: ms), r')
                  | none => none
              | none => none
          else parseNumTok (c :: rest)

/-- Parse one object member (string key, colon, value). -/
def parseMember : Nat → List Char → Option ((String × Json) × List Char)
  | 0, _ => none
  | f + 1, s =>
      match s with
      | '"' :: s' =>
          match parseStringBody s' with
          | some (cs, r) =>
              match r with
              | ':' :: r' =>
                  match parseVal f r' with
                  | some (v, r'') => some ((String.mk cs, v), r'')
                  | none => none
              | _ => none
          | none => none
      | _ => none

/-- Parse the remaining array items: either a closing bracket or a comma
followed by a value, repeated. -/
def parseCommaItems : Nat → List Char → Option (List Json × List Char)
  | 0, _ => none
  | f + 1, s =>
      match s with
      | ']' :: r => some ([], r)
      | ',' :: s' =>
          match parseVal f s' with
          | some (v, r) =>
              match parseCommaItems f r with
              | some (vs, r') => some (v :: vs, r')
              | none => none
          | none => none
      | _ => none

/-- Parse the remaining object members: either a closing brace or a comma
followed by a member, repeated. -/
def parseCommaMembers : Nat → List Char → Option (List (String × Json) × List Char)
  | 0, _ => none
  | f + 1, s =>
      match s with
      | '\x7d' :: r => some ([], r)
      | ',' :: s' =>
          match parseMember f s' with
          | some (m, r) =>
              match parseCommaMembers f r with
              | some (ms, r') => some (m :: ms, r')
              | none => none
          | none => none
      | _ => none

end

/-- Full JSON parse of a string: the whole input must be consumed.  The
model of `JSON.parse` (on the grammar the encoder emits; insignificant
whitespace, fractional and exponent numerals and hex escapes are not
modelled, and a failure models the `SyntaxError` `JSON.parse` throws). -/
def jsonParse (s : String) : Option Json :=
  match parseVal (s.data.length + 1) s.data with
  | some (v, []) => some v
  | _ => none

/-! ### Round trip: the parser inverts the encoder -/

theorem stringMk_data (s : String) : String.mk s.data = s := rfl

theorem encChars_head (v : Json) :
    ∃ c cs, encChars v = c :: cs ∧ c ≠ ']' ∧ c ≠ '\x7d' := by
  cases v with
  | null => exact ⟨'n', ['u', 'l', 'l'], by simp [encChars], by decide, by decide⟩
  | bool b =>
      cases b with
      | true => exact ⟨'t', ['r', 'u', 'e'], by simp [encChars], by decide, by decide⟩
      | false => exact ⟨'f', ['a', 'l', 's', 'e'], by simp [encChars], by decide, by decide⟩
  | num n =>
      rw [show encChars (.num n) = intRepr n from by simp [encChars], intRepr]
      split
      · exact ⟨'-', natToDigits n.natAbs, rfl, by decide, by decide⟩
      · rcases h : natToDigits n.toNat with _ | ⟨c, cs⟩
        · exact absurd h (natToDigits_ne_nil _)
        · have hall := natToDigits_all_digit n.toNat
          rw [h] at hall
          simp only [List.all_cons, Bool.and_eq_true] at hall
          exact ⟨c, cs, rfl,
            isDigit_ne_of_not c ']' hall.1 (by decide),
            isDigit_ne_of_not c '\x7d' hall.1 (by decide)⟩
  | str s =>
      exact ⟨'"', s.data.flatMap escChar ++ ['"'], by simp [encChars, encStrChars],
        by decide, by decide⟩
  | arr xs =>
      cases xs with
      | nil => exact ⟨'[', [']'], by simp [encChars], by decide, by decide⟩
      | cons x xs =>
          exact ⟨'[', encChars x ++ encItems xs ++ [']'], by simp [encChars],
            by decide, by decide⟩
  | obj ms =>
      cases ms with
      | nil => exact ⟨'\x7b', ['\x7d'], by simp [encChars], by decide, by decide⟩
      | cons m ms =>
          rcases m with ⟨k, v⟩
          exact ⟨'\x7b', encStrChars k ++ ':' :: encChars v ++ encMems ms ++ ['\x7d'],
            by simp [encChars], by decide, by decide⟩

theorem head?_encChars_append (x : Json) (l : List Char) :
    (encChars x ++ l).head? ≠ some ']' ∧ (encChars x ++ l).head? ≠ some '\x7d' := by
  obtain ⟨c, cs, hx, h1, h2⟩ := encChars_head x
  rw [hx]
  simp [h1, h2]

theorem headDigit_encItems (xs : List Json) (rest : List Char) :
    headDigit (encItems xs ++ ']' :: rest) = false := by
  cases xs with
  | nil => simp [encItems, headDigit]
  | cons x xs => simp [encItems, headDigit]

theorem headDigit_encMems (ms : List (String × Json)) (rest : List Char) :
    headDigit (encMems ms ++ '\x7d' :: rest) = false := by
  cases ms with
  | nil => simp [encMems, headDigit]
  | cons m ms =>
      rcases m with ⟨k, v⟩
      simp [encMems, headDigit]

theorem parseVal_digit_head (f : Nat) (c : Char) (l : List Char) (h : c.isDigit = true) :
    parseVal (f + 1) (c :: l) = parseNumTok (c :: l) := by
  simp only [parseVal]
  rw [if_neg (isDigit_ne_of_not c 'n' h (by decide)),
    if_neg (isDigit_ne_of_not c 't' h (by decide)),
    if_neg (isDigit_ne_of_not c 'f' h (by decide)),
    if_neg (isDigit_ne_of_not c '"' h (by decide)),
    if_neg (isDigit_ne_of_not c '[' h (by decide)),
    if_neg (isDigit_ne_of_not c '\x7b' h (by decide))]

theorem itemsSize_pos (xs : List Json) : 1 ≤ itemsSize xs := by
  cases xs <;> simp only [itemsSize] <;> omega

theorem memsSize_pos (ms : List (String × Json)) : 1 ≤ memsSize ms := by
  cases ms with
  | nil => simp only [memsSize]; omega
  | cons m ms => rcases m with ⟨k, v⟩; simp only [memsSize]; omega

theorem parse_encChars (f : Nat) :
    (∀ v rest, sizeJ v ≤ f → headDigit rest = false →
      parseVal f (encChars v ++ rest) = some (v, rest)) ∧
    (∀ xs rest, itemsSize xs ≤ f →
      parseCommaItems f (encItems xs ++ ']' :: rest) = some (xs, rest)) ∧
    (∀ k v rest, 1 + sizeJ v ≤ f → headDigit rest = false →
      parseMember f (encStrChars k ++ ':' :: (encChars v ++ rest)) = some ((k, v), rest)) ∧
    (∀ ms rest, memsSize ms ≤ f →
      parseCommaMembers f (encMems ms ++ '\x7d' :: rest) = some (ms, rest)) := by
  induction f with
  | zero =>
      refine ⟨fun v rest hs _ => ?_, fun xs rest hs => ?_, fun k v rest hs _ => ?_,
        fun ms rest hs => ?_⟩
      · exact absurd hs (by have := sizeJ_pos v; omega)
      · exact absurd hs (by have := itemsSize_pos xs; omega)
      · exact absurd hs (by have := sizeJ_pos v; omega)
      · exact absurd hs (by have := memsSize_pos ms; omega)
  | succ f ih =>
      obtain ⟨ihv, ihi, ihm, ihms⟩ := ih
      refine ⟨fun v rest hs hr => ?_, fun xs rest hs => ?_, fun k v rest hs hr => ?_,
        fun ms rest hs => ?_⟩
      · cases v with
        | null =>
            simp only [encChars, List.cons_append, List.nil_append]
            simp [parseVal]
        | bool b =>
            cases b <;>
              (simp only [encChars, List.cons_append, List.nil_append]; simp [parseVal])
        | num n =>
            rw [show encChars (.num n) = intRepr n from by simp [encChars], intRepr]
            by_cases hn : n < 0
            · rw [if_pos hn]
              simp only [List.cons_append]
              simp only [parseVal, parseNumTok]
              simp only [if_true]
              rw [parseNumber_natToDigits _ _ hr]
              have habs : -((n.natAbs : Int)) = n := by omega
              show some (Json.num (-((n.natAbs : Int))), rest) = some (Json.num n, rest)
              rw [habs]
            · rw [if_neg hn]
              rcases h : natToDigits n.toNat with _ | ⟨c, cs⟩
              · exact absurd h (natToDigits_ne_nil _)
              · have hall := natToDigits_all_digit n.toNat
                rw [h] at hall
                simp only [List.all_cons, Bool.and_eq_true] at hall
                simp only [List.cons_append]
                rw [parseVal_digit_head f c _ hall.1]
                simp only [parseNumTok]
                rw [if_neg (isDigit_ne_of_not c '-' hall.1 (by decide)),
                  show (c :: (cs ++ rest)) = (c :: cs) ++ rest from rfl, ← h,
                  parseNumber_natToDigits _ _ hr]
                have htn : ((n.toNat : Int)) = n := Int.toNat_of_nonneg (by omega)
                simp [htn]
        | str s =>
            rw [show encChars (.str s) ++ rest
              = '"' :: (s.data.flatMap escChar ++ ('"' :: rest)) from by
                simp [encChars, encStrChars]]
            simp [parseVal, parseStringBody_roundtrip, stringMk_data]
        | arr xs =>
            cases xs with
            | nil =>
                rw [show encChars (.arr []) ++ rest = '[' :: ']' :: rest from by
                  simp [encChars]]
                simp [parseVal]
            | cons x xs =>
                simp only [sizeJ] at hs
                have hv := ihv x (encItems xs ++ ']' :: rest) (by omega)
                  (headDigit_encItems xs rest)
                have hi := ihi xs rest (by omega)
                rw [show encChars (.arr (x :: xs)) ++ rest
                  = '[' :: (encChars x ++ (encItems xs ++ (']' :: rest))) from by
                    simp [encChars]]
                simp only [parseVal]
                simp only [if_true]
                rw [if_neg (head?_encChars_append x (encItems xs ++ ']' :: rest)).1]
                simp [hv, hi]
        | obj ms =>
            cases ms with
            | nil =>
                rw [show encChars (.obj []) ++ rest = '\x7b' :: '\x7d' :: rest from by
                  simp [encChars]]
                simp [parseVal]
            | cons m ms =>
                rcases m with ⟨k, v⟩
                simp only [sizeJ] at hs
                have hm := ihm k v (encMems ms ++ '\x7d' :: rest) (by omega)
                  (headDigit_encMems ms rest)
                have hcm := ihms ms rest (by omega)
                rw [show encChars (.obj ((k, v) :: ms)) ++ rest
                  = '\x7b' :: (encStrChars k ++ ':' :: (encChars v ++ (encMems ms
                    ++ ('\x7d' :: rest)))) from by simp [encChars]]
                simp only [parseVal]
                simp only [if_true]
                rw [if_neg (show (encStrChars k ++ ':' :: (encChars v ++ (encMems ms
                  ++ ('\x7d' :: rest)))).head? ≠ some '\x7d' from by simp [encStrChars])]
                simp [hm, hcm]
      · cases xs with
        | nil =>
            simp only [encItems, List.nil_append]
            simp [parseCommaItems]
        | cons x xs =>
            simp only [itemsSize] at hs
            have hv := ihv x (encItems xs ++ ']' :: rest) (by omega)
              (headDigit_encItems xs rest)
            have hi := ihi xs rest (by omega)
            rw [show encItems (x :: xs) ++ ']' :: rest
              = ',' :: (encChars x ++ (encItems xs ++ (']' :: rest))) from by
                simp [encItems]]
            simp only [parseCommaItems]
            simp [hv, hi]
      · rw [show encStrChars k ++ ':' :: (encChars v ++ rest)
          = '"' :: (k.data.flatMap escChar ++ ('"' :: (':' :: (encChars v ++ rest))))
          from by simp [encStrChars]]
        simp only [parseMember]
        simp [parseStringBody_roundtrip, ihv v rest (by omega) hr, stringMk_data]
      · cases ms with
        | nil =>
            simp only [encMems, List.nil_append]
            simp [parseCommaMembers]
        | cons m ms =>
            rcases m with ⟨k, v⟩
            simp only [memsSize] at hs
            have hm := ihm k v (encMems ms ++ '\x7d' :: rest) (by omega)
              (headDigit_encMems ms rest)
            have hcm := ihms ms rest (by omega)
            rw [show encMems ((k, v) :: ms) ++ '\x7d' :: rest
              = ',' :: (encStrChars k ++ ':' :: (encChars v ++ (encMems ms
                ++ ('\x7d' :: rest)))) from by simp [encMems]]
            simp only [parseCommaMembers]
            simp [hm, hcm]

theorem intRepr_length_pos (n : Int) : 1 ≤ (intRepr n).length := by
  rw [intRepr]
  split
  · simp
  · cases h : natToDigits n.toNat with
    | nil => exact absurd h (natToDigits_ne_nil _)
    | cons c cs => simp [h]

mutual

theorem sizeJ_le_enc (v : Json) : sizeJ v ≤ (encChars v).length := by
  cases v with
  | null => simp [sizeJ, encChars]
  | bool b => cases b <;> simp [sizeJ, encChars]
  | num n =>
      have := intRepr_length_pos n
      simp only [sizeJ, show encChars (.num n) = intRepr n from by simp [encChars]]
      omega
  | str s =>
      simp only [sizeJ, show encChars (.str s) = encStrChars s from by simp [encChars],
        encStrChars, List.length_cons]
      omega
  | arr xs =>
      cases xs with
      | nil => simp [sizeJ, encChars]
      | cons x xs =>
          have h1 := sizeJ_le_enc x
          have h2 := itemsSize_le_enc xs
          simp only [sizeJ, encChars, List.length_cons, List.length_append]
          omega
  | obj ms =>
      cases ms with
      | nil => simp [sizeJ, encChars]
      | cons m ms =>
          rcases m with ⟨k, v⟩
          have h1 := sizeJ_le_enc v
          have h2 := memsSize_le_enc ms
          simp only [sizeJ, encChars, List.length_cons, List.length_append]
          omega

theorem itemsSize_le_enc (xs : List Json) : itemsSize xs ≤ (encItems xs).length + 1 := by
  cases xs with
  | nil => simp [itemsSize, encItems]
  | cons x xs =>
      have h1 := sizeJ_le_enc x
      have h2 := itemsSize_le_enc xs
      simp only [itemsSize, encItems, List.length_cons, List.length_append]
      omega

theorem memsSize_le_enc (ms : List (String × Json)) :
    memsSize ms ≤ (encMems ms).length + 1 := by
  cases ms with
  | nil => simp [memsSize, encMems]
  | cons m ms =>
      rcases m with ⟨k, v⟩
      have h1 := sizeJ_le_enc v
      have h2 := memsSize_le_enc ms
      simp only [memsSize, encMems, List.length_cons, List.length_append]
      omega

end

/-- `JSON.parse` inverts `JSON.stringify`: the decode-encode round trip is
the identity on JSON values. -/
theorem jsonParse_jsonStringify (v : Json) : jsonParse (jsonStringify v) = some v := by
  simp only [jsonParse, jsonStringify]
  have h := (parse_encChars ((encChars v).length + 1)).1 v []
    (by have := sizeJ_le_enc v; omega) rfl
  rw [List.append_nil] at h
  rw [h]

/-! ### JavaScript runtime values and coercions -/

/-- The five value kinds the binder supports (the coercion strategies of
the type-dispatch table). -/
inductive Kind where
  | num
  | bool
  | str
  | arr
  | obj
  deriving DecidableEq, Repr

/-- JavaScript runtime values as far as the binder observes them.  Array
and object payloads are JSON-representable data (`Json`); `nan`, `nul`,
`undef` and `func` model `NaN`, `null`, `undefined` and function values. -/
inductive JsValue where
  | num (n : Int)
  | nan
  | bool (b : Bool)
  | str (s : String)
  | arr (xs : List Json)
  | obj (fs : List (String × Json))
  | nul
  | undef
  | func

/-- `true` exactly on `undefined`. -/
def JsValue.isUndef : JsValue → Bool
  | .undef => true
  | _ => false

/-- JavaScript truthiness. -/
def truthy : JsValue → Bool
  | .num n => n != 0
  | .nan => false
  | .bool b => b
  | .str s => s != ""
  | .arr _ => true
  | .obj _ => true
  | .nul => false
  | .undef => false
  | .func => true

/-- JavaScript string coercion (`setAttribute` coerces its value
argument).  The array, object and function cases are approximations: the
descriptors never string-coerce those (array/object descriptors use
`JSON.stringify` instead), so these cases are unexercised. -/
def jsToString : JsValue → String
  | .num n => String.mk (intRepr n)
  | .nan => "NaN"
  | .bool true => "true"
  | .bool false => "false"
  | .str s => s
  | .nul => "null"
  | .undef => "undefined"
  | .arr _ => ""
  | .obj _ => "[object Object]"
  | .func => "function"

/-- JavaScript `Number(text)` on the texts this code can produce: decimal
integer numerals parse to their value, anything else is `NaN`.  (Floats,
hex and whitespace trimming are not modelled; the descriptors only write
decimal integer text.) -/
def jsNumber (t : String) : JsValue :=
  if t.data = [] then .num 0
  else if t.data.head? = some '-' then
    if t.data.tail ≠ [] ∧ t.data.tail.all Char.isDigit then
      .num (-((digitsToNat t.data.tail : Int)))
    else .nan
  else if t.data.all Char.isDigit then .num ((digitsToNat t.data : Int))
  else .nan

/-- `JSON.stringify` on a runtime value.  `NaN` serializes to `null`;
`undefined` and functions have no JSON form (JavaScript yields `undefined`,
which `setAttribute` then coerces to the text `undefined`); those corners
are unexercised by the descriptors' contracts. -/
def jsonStringifyValue : JsValue → String
  | .num n => jsonStringify (.num n)
  | .nan => "null"
  | .bool b => jsonStringify (.bool b)
  | .str s => jsonStringify (.str s)
  | .arr xs => jsonStringify (.arr xs)
  | .obj fs => jsonStringify (.obj fs)
  | .nul => "null"
  | .undef => "undefined"
  | .func => "undefined"

/-- The runtime value a parsed JSON value denotes. -/
def jsonToValue : Json → JsValue
  | .null => .nul
  | .bool b => .bool b
  | .num n => .num n
  | .str s => .str s
  | .arr xs => .arr xs
  | .obj fs => .obj fs

/-- `true` exactly on `Json.null`. -/
def Json.isNull : Json → Bool
  | .null => true
  | _ => false

/-- JavaScript `typeof value === 'object'` for a parsed JSON value:
arrays, objects and `null`. -/
def jsonTypeofObject : Json → Bool
  | .null => true
  | .arr _ => true
  | .obj _ => true
  | _ => false

/-- The kind-classification of `initializeAttributable` (source lines
17-27): `typeof value` dispatch, with `Array.isArray` splitting arrays
from other objects.  `null` lands in the object branch because
`typeof null === 'object'`; `undefined` and functions match no branch. -/
def classify : JsValue → Option Kind
  | .num _ => some .num
  | .nan => some .num
  | .bool _ => some .bool
  | .str _ => some .str
  | .arr _ => some .arr
  | .obj _ => some .obj
  | .nul => some .obj
  | .undef => none
  | .func => none

/-- The `value.constructor` of a runtime value, compared against the
declared nominal type by the `attribute` decorator.  `none` for values
whose constructor is none of the five supported ones (`null` has no
constructor at all: reading it throws, surfacing as the same kind of
`TypeError`). -/
def constructorOf : JsValue → Option Kind
  | .num _ => some .num
  | .nan => some .num
  | .bool _ => some .bool
  | .str _ => some .str
  | .arr _ => some .arr
  | .obj _ => some .obj
  | .nul => none
  | .undef => none
  | .func => none

/-- `new options.type().valueOf()`: the zero value of each declared type. -/
def zeroValue : Kind → JsValue
  | .num => .num 0
  | .bool => .bool false
  | .str => .str ""
  | .arr => .arr []
  | .obj => .obj []

/-! ### The element and its attribute store -/

/-- Modelled from the spec: the `Component` base class (`component.js`,
an external collaborator of the core) is, for the binder, just the
element attribute store with presence semantics, plus the property
descriptors installed on the instance and the other keys visible through
the `in` operator.  `attrs` maps attribute names to string values;
`props` records the accessors installed by `Object.defineProperty`
(most recent first, as redefinition shadows); `fields` are the other own
or inherited property keys of the instance. -/
structure Component where
  attrs : List (String × String)
  props : List (String × Kind × String)
  fields : List String

/-- `getAttribute`: the attribute's text, or absent. -/
def Component.getAttribute (c : Component) (name : String) : Option String :=
  (c.attrs.find? (fun p => p.1 == name)).map (fun p => p.2)

/-- `hasAttribute`: presence test. -/
def Component.hasAttribute (c : Component) (name : String) : Bool :=
  (c.getAttribute name).isSome

/-- `setAttribute`: create or overwrite. -/
def Component.setAttribute (c : Component) (name value : String) : Component :=
  { c with attrs := (name, value) :: c.attrs.filter (fun p => p.1 != name) }

/-- `removeAttribute`. -/
def Component.removeAttribute (c : Component) (name : String) : Component :=
  { c with attrs := c.attrs.filter (fun p => p.1 != name) }

/-- `toggleAttribute(name, force)`: with `force = true` ensure presence
(created with empty value when absent), with `force = false` remove. -/
def Component.toggleAttribute (c : Component) (name : String) (force : Bool) : Component :=
  if force then
    if c.hasAttribute name then c else c.setAttribute name ""
  else c.removeAttribute name

/-- The `name in component` test: the key resolves on the instance. -/
def nameIn (c : Component) (name : String) : Bool :=
  (c.props.find? (fun p => p.1 == name)).isSome || c.fields.contains name

/-! ### The five per-kind property descriptors (source lines 40-110) -/

/-- A get/set accessor pair, as installed by `Object.defineProperty`.
Getters can throw; setters in this code never do. -/
structure PropertyDescriptor where
  get : Component → Except JsError JsValue
  set : JsValue → Component → Component

/-- Number kind: get is `Number(getAttribute(p) || 0)`; set writes the
string coercion of the fresh value. -/
def numberDescriptor (parameterized : String) : PropertyDescriptor where
  get c :=
    match c.getAttribute parameterized with
    | none => .ok (.num 0)
    | some t => .ok (if t = "" then .num 0 else jsNumber t)
  set fresh c := c.setAttribute parameterized (jsToString fresh)

/-- Boolean kind: get is `hasAttribute`; set is `toggleAttribute` on the
truthiness of the fresh value. -/
def booleanDescriptor (parameterized : String) : PropertyDescriptor where
  get c := .ok (.bool (c.hasAttribute parameterized))
  set fresh c := c.toggleAttribute parameterized (truthy fresh)

/-- String kind: get is `getAttribute(p) || ''`; set writes
`fresh || ''`. -/
def stringDescriptor (parameterized : String) : PropertyDescriptor where
  get c :=
    match c.getAttribute parameterized with
    | none => .ok (.str "")
    | some t => .ok (.str t)
  set fresh c :=
    c.setAttribute parameterized (jsToString (if truthy fresh then fresh else .str ""))

/-- Array kind: get JSON-parses `getAttribute(p) || '[]'` and throws a
`TypeError` unless the decoded value is non-null, of object type, and an
array; set writes `JSON.stringify(fresh || [])`. -/
def arrayDescriptor (parameterized : String) : PropertyDescriptor where
  get c :=
    let t := match c.getAttribute parameterized with
      | none => "[]"
      | some t => if t = "" then "[]" else t
    match jsonParse t with
    | none => .error .parseError
    | some v =>
        if v.isNull || !(jsonTypeofObject v) || !(v.isArr) then .error .typeError
        else .ok (jsonToValue v)
  set fresh c :=
    c.setAttribute parameterized (jsonStringifyValue (if truthy fresh then fresh else .arr []))

/-- PlainObject kind: get JSON-parses `getAttribute(p) || '\x7b\x7d'` and
throws a `TypeError` unless the decoded value is non-null, of object type,
and not an array; set writes `JSON.stringify(fresh || \x7b\x7d)`. -/
def objectDescriptor (parameterized : String) : PropertyDescriptor where
  get c :=
    let t := match c.getAttribute parameterized with
      | none => "\x7b\x7d"
      | some t => if t = "" then "\x7b\x7d" else t
    match jsonParse t with
    | none => .error .parseError
    | some v =>
        if v.isNull || !(jsonTypeofObject v) || v.isArr then .error .typeError
        else .ok (jsonToValue v)
  set fresh c :=
    c.setAttribute parameterized (jsonStringifyValue (if truthy fresh then fresh else .obj []))

/-- The descriptor selected for a classified kind (the branch structure of
source lines 17-27). -/
def descriptorFor : Kind → String → PropertyDescriptor
  | .num, p => numberDescriptor p
  | .bool, p => booleanDescriptor p
  | .str, p => stringDescriptor p
  | .arr, p => arrayDescriptor p
  | .obj, p => objectDescriptor p

/-! ### The name normalizer (`util.ts` lines 15-37)

`toKebabCase` is the composition of the four steps of the source, each
modelled with JavaScript regex semantics:
`replace(/([A-Z]($|[a-z]))/g, ...)` matches a single uppercase letter
followed by end-of-input or a lowercase letter (left to right,
non-overlapping); `replace(/--/g, '-')` rewrites non-overlapping pairs
left to right; `replace(/^-|-$/, '')` (no `g` flag) removes one leading
separator, or else one trailing one; `toLowerCase` is modelled on ASCII
(property identifiers).  `[A-Z]` and `[a-z]` coincide with `Char.isUpper`
and `Char.isLower`, which are ASCII-only. -/

/-- Step 1: insert `-` before every uppercase letter that is immediately
followed by end-of-input or a lowercase letter (the match consumes the
following lowercase letter, which cannot start a new match anyway). -/
def insertHyphens : List Char → List Char
  | [] => []
  | c :: [] => if c.isUpper then ['-', c] else [c]
  | c :: d :: rest' =>
      if c.isUpper then
        if d.isLower then '-' :: c :: d :: insertHyphens rest'
        else c :: insertHyphens (d :: rest')
      else c :: insertHyphens (d :: rest')

/-- Step 2: replace each non-overlapping `--` pair with `-`, left to
right. -/
def collapseDouble : List Char → List Char
  | '-' :: '-' :: rest => '-' :: collapseDouble rest
  | c :: rest => c :: collapseDouble rest
  | [] => []

/-- Step 3: remove a leading `-`; otherwise remove a trailing `-` (the
regex has no `g` flag, so only the first alternative that matches is
applied, once). -/
def stripEdge (l : List Char) : List Char :=
  match l with
  | '-' :: rest => rest
  | _ => if l.getLast? = some '-' then l.dropLast else l

/-- `toKebabCase` of `util.ts` (lines 31-37). -/
def toKebabCase (key : String) : String :=
  String.mk ((stripEdge (collapseDouble (insertHyphens key.data))).map Char.toLower)

/-- `mustKebabCase` of `util.ts` (lines 15-23): fails with the
`DOMException` named SyntaxError when the result contains no hyphen. -/
def mustKebabCase (key : String) : Except JsError String :=
  let kebabCase := toKebabCase key
  if kebabCase.data.contains '-' then .ok kebabCase else .error .namingError

/-- Modelled from the spec: `parameterize.js` is not in the repository
snapshot; per the spec (§4.1, one Name Normalizer) and `util.ts`, the
binder's `mustParameterize` is the kebab-case normalizer
`mustKebabCase`. -/
def mustParameterize (name : String) : Except JsError String := mustKebabCase name

/-! ### The binder (`initializeAttributable`, source lines 12-38) -/

/-- `Object.defineProperty(component, name, descriptor)`: installs the
accessor for `name` (kind and normalized attribute name), shadowing any
earlier installation. -/
def defineProperty (c : Component) (name : String) (kind : Kind)
    (parameterized : String) : Component :=
  { c with props := (name, kind, parameterized) :: c.props }

/-- The binder: for each registered declaration in order, normalize the
name, classify the initial value, install the descriptor, and, when the
key resolves on the instance and the normalized attribute is absent, push
the initial value through the installed setter. -/
def initializeAttributable : List (String × JsValue) → Component → Except JsError Component
  | [], c => .ok c
  | (name, value) :: rest, c =>
      match mustParameterize name with
      | .error e => .error e
      | .ok parameterized =>
          match classify value with
          | none => .error .typeError
          | some kind =>
              let c1 := defineProperty c name kind parameterized
              let c2 :=
                if nameIn c1 name && !(c1.hasAttribute parameterized) then
                  (descriptorFor kind parameterized).set value c1
                else c1
              initializeAttributable rest c2

/-- Reading the property `name` on the instance: the most recently
installed descriptor's getter, if one is installed. -/
def readProp (c : Component) (name : String) : Option (Except JsError JsValue) :=
  (c.props.find? (fun p => p.1 == name)).map (fun p => (descriptorFor p.2.1 p.2.2).get c)

/-- Writing the property `name` on the instance: the most recently
installed descriptor's setter, if one is installed. -/
def writeProp (c : Component) (name : String) (fresh : JsValue) : Option Component :=
  (c.props.find? (fun p => p.1 == name)).map (fun p => (descriptorFor p.2.1 p.2.2).set fresh c)

/-! ### The decorators (source lines 112-143) -/

/-- The `context.kind` of a decorator application. -/
inductive DecoratorKind where
  | classKind
  | field
  | accessor
  | getter
  | setter
  | method
  deriving DecidableEq, Repr

/-- The decorator context the `attribute` decorator receives. -/
structure FieldContext where
  kind : DecoratorKind
  name : String

/-- The field initializer the `attribute` decorator registers (source
lines 135-141): runs when the field initializes with the field's initial
`value`; throws a `TypeError` when a defined value's constructor differs
from the declared type (reading `null.constructor` throws the same way);
otherwise appends `(name, value ?? new type().valueOf())` to the
registry. -/
def attributeInitializer (ty : Kind) (name : String) (value : JsValue)
    (registry : List (String × JsValue)) : Except JsError (List (String × JsValue)) :=
  if value.isUndef then .ok (registry ++ [(name, zeroValue ty)])
  else if constructorOf value = some ty then .ok (registry ++ [(name, value)])
  else .error .typeError

/-- The `attribute` decorator applied at class-declaration time (source
lines 129-143): rejects non-field contexts with a `TypeError`, otherwise
returns the field initializer.  (`attribute` is a Lean keyword, hence the
longer Lean name.) -/
def attributeDecorator (ty : Kind) (ctx : FieldContext) :
    Except JsError (JsValue → List (String × JsValue) → Except JsError (List (String × JsValue))) :=
  if ctx.kind ≠ DecoratorKind.field then .error .typeError
  else .ok (fun value registry => attributeInitializer ty ctx.name value registry)

/-- The `attributable` decorator's context check (source lines 112-115):
only class contexts are accepted. -/
def attributable (ctxKind : DecoratorKind) : Except JsError Unit :=
  if ctxKind ≠ DecoratorKind.classKind then .error .typeError else .ok ()

/-! ### Component and descriptor lemmas -/

theorem getAttribute_setAttribute_self (c : Component) (name value : String) :
    (c.setAttribute name value).getAttribute name = some value := by
  simp [Component.setAttribute, Component.getAttribute, List.find?_cons]

theorem hasAttribute_setAttribute_self (c : Component) (name value : String) :
    (c.setAttribute name value).hasAttribute name = true := by
  simp [Component.hasAttribute, getAttribute_setAttribute_self]

theorem find?_filter_ne (attrs : List (String × String)) (p : String) :
    (attrs.filter (fun q => q.1 != p)).find? (fun q => q.1 == p) = none := by
  induction attrs with
  | nil => rfl
  | cons a as ih =>
      simp only [List.filter_cons]
      by_cases h : a.1 = p
      · rw [if_neg (by simp [bne, h])]
        exact ih
      · rw [if_pos (by simp [bne, h]), List.find?_cons_of_neg _ (by simp [h])]
        exact ih

theorem getAttribute_removeAttribute_self (c : Component) (p : String) :
    (c.removeAttribute p).getAttribute p = none := by
  simp [Component.removeAttribute, Component.getAttribute, find?_filter_ne]

theorem hasAttribute_removeAttribute_self (c : Component) (p : String) :
    (c.removeAttribute p).hasAttribute p = false := by
  simp [Component.hasAttribute, getAttribute_removeAttribute_self]

theorem hasAttribute_toggle_self (c : Component) (p : String) (b : Bool) :
    (c.toggleAttribute p b).hasAttribute p = b := by
  cases b with
  | false => simp [Component.toggleAttribute, hasAttribute_removeAttribute_self]
  | true =>
      simp only [Component.toggleAttribute, if_true]
      by_cases h : c.hasAttribute p = true
      · simp [h]
      · simp only [Bool.not_eq_true] at h
        simp [h, hasAttribute_setAttribute_self]

theorem props_defineProperty (c : Component) (n : String) (k : Kind) (p : String) :
    (defineProperty c n k p).props = (n, k, p) :: c.props := rfl

theorem attrs_defineProperty (c : Component) (n : String) (k : Kind) (p : String) :
    (defineProperty c n k p).attrs = c.attrs := rfl

theorem props_descriptorSet (k : Kind) (p : String) (v : JsValue) (c : Component) :
    ((descriptorFor k p).set v c).props = c.props := by
  cases k with
  | num => rfl
  | bool =>
      simp only [descriptorFor, booleanDescriptor, Component.toggleAttribute]
      split
      · split <;> rfl
      · rfl
  | str => rfl
  | arr => rfl
  | obj => rfl

theorem get_defineProperty (k : Kind) (p : String) (c : Component) (n : String)
    (k' : Kind) (p' : String) :
    (descriptorFor k p).get (defineProperty c n k' p') = (descriptorFor k p).get c := by
  cases k <;> rfl

theorem nameIn_defineProperty (c : Component) (n : String) (k : Kind) (p : String) :
    nameIn (defineProperty c n k p) n = true := by
  simp [nameIn, defineProperty, List.find?_cons]

theorem classify_of_constructorOf (v : JsValue) (k : Kind)
    (h : constructorOf v = some k) : classify v = some k := by
  cases v <;> simp_all [constructorOf, classify]

theorem initializeAttributable_single (name : String) (v : JsValue) (k : Kind) (p : String)
    (c : Component) (hcl : classify v = some k) (hp : mustParameterize name = .ok p)
    (habs : c.hasAttribute p = false) :
    initializeAttributable [(name, v)] c
      = .ok ((descriptorFor k p).set v (defineProperty c name k p)) := by
  simp only [initializeAttributable, hp, hcl]
  have h1 : nameIn (defineProperty c name k p) name = true := nameIn_defineProperty c name k p
  have h2 : (defineProperty c name k p).hasAttribute p = false := habs
  simp [h1, h2]

theorem initializeAttributable_single_present (name : String) (v : JsValue) (k : Kind)
    (p : String) (c : Component) (hcl : classify v = some k)
    (hp : mustParameterize name = .ok p) (hat : c.hasAttribute p = true) :
    initializeAttributable [(name, v)] c = .ok (defineProperty c name k p) := by
  simp only [initializeAttributable, hp, hcl]
  have h2 : (defineProperty c name k p).hasAttribute p = true := hat
  simp [h2]

theorem stringMk_ne_empty (l : List Char) (h : l ≠ []) : String.mk l ≠ "" := by
  intro he
  exact h (congrArg String.data he)

theorem intRepr_ne_nil (n : Int) : intRepr n ≠ [] := by
  rw [intRepr]
  split
  · simp
  · exact natToDigits_ne_nil _

theorem digitsToNat_natToDigits (m : Nat) : digitsToNat (natToDigits m) = m := by
  have h := foldl_digitStep_natToDigits m 0
  simp only [digitsToNat, h, Nat.zero_mul, Nat.zero_add]

theorem jsNumber_intRepr (n : Int) : jsNumber (String.mk (intRepr n)) = .num n := by
  have hdata : (String.mk (intRepr n)).data = intRepr n := rfl
  by_cases hn : n < 0
  · have hrepr : intRepr n = '-' :: natToDigits n.natAbs := by
      rw [intRepr, if_pos hn]
    have htail : (natToDigits n.natAbs).all Char.isDigit = true := natToDigits_all_digit _
    have hne : natToDigits n.natAbs ≠ [] := natToDigits_ne_nil _
    rw [jsNumber, hdata, hrepr]
    rw [if_neg (by simp)]
    rw [if_pos (by simp)]
    rw [if_pos (by simp only [List.tail_cons]; exact ⟨hne, htail⟩)]
    simp only [List.tail_cons, digitsToNat_natToDigits]
    have hcast : -((n.natAbs : Int)) = n := by omega
    rw [hcast]
  · have hrepr : intRepr n = natToDigits n.toNat := by
      rw [intRepr, if_neg hn]
    rcases h : natToDigits n.toNat with _ | ⟨c, cs⟩
    · exact absurd h (natToDigits_ne_nil _)
    · have hall := natToDigits_all_digit n.toNat
      rw [h] at hall
      simp only [List.all_cons, Bool.and_eq_true] at hall
      rw [jsNumber, hdata, hrepr, h]
      rw [if_neg (by simp)]
      rw [if_neg (by
        simp only [List.head?_cons, Option.some.injEq]
        exact isDigit_ne_of_not c '-' hall.1 (by decide))]
      rw [if_pos (by rw [← h]; exact natToDigits_all_digit _)]
      rw [← h, digitsToNat_natToDigits]
      have hcast : ((n.toNat : Int)) = n := Int.toNat_of_nonneg (by omega)
      rw [hcast]

theorem jsonStringify_ne_empty (v : Json) : jsonStringify v ≠ "" := by
  obtain ⟨c, cs, h, _, _⟩ := encChars_head v
  rw [jsonStringify, h]
  exact stringMk_ne_empty _ (by simp)

/-- Get after set through the same installed descriptor returns the value
written, for every value whose constructor matches the kind (the
decode-encode round trip of the type-dispatch table). -/
theorem descriptor_get_set (k : Kind) (p : String) (v : JsValue)
    (hv : constructorOf v = some k) (c : Component) :
    (descriptorFor k p).get ((descriptorFor k p).set v c) = .ok v := by
  cases v with
  | num n =>
      simp only [constructorOf, Option.some.injEq] at hv
      subst hv
      simp only [descriptorFor, numberDescriptor,
        show jsToString (JsValue.num n) = String.mk (intRepr n) from rfl,
        getAttribute_setAttribute_self]
      rw [if_neg (stringMk_ne_empty _ (intRepr_ne_nil n)), jsNumber_intRepr]
  | nan =>
      simp only [constructorOf, Option.some.injEq] at hv
      subst hv
      simp only [descriptorFor, numberDescriptor,
        show jsToString JsValue.nan = "NaN" from rfl, getAttribute_setAttribute_self]
      rw [if_neg (by decide : ¬(("NaN" : String) = ""))]
      rfl
  | bool b =>
      simp only [constructorOf, Option.some.injEq] at hv
      subst hv
      simp [descriptorFor, booleanDescriptor, truthy, hasAttribute_toggle_self]
  | str s =>
      simp only [constructorOf, Option.some.injEq] at hv
      subst hv
      have hw : jsToString (if truthy (.str s) then .str s else .str "") = s := by
        by_cases hs : s = "" <;> simp [truthy, jsToString, hs]
      simp [descriptorFor, stringDescriptor, hw, getAttribute_setAttribute_self]
  | arr xs =>
      simp only [constructorOf, Option.some.injEq] at hv
      subst hv
      simp only [descriptorFor, arrayDescriptor, truthy, if_true,
        show jsonStringifyValue (JsValue.arr xs) = jsonStringify (.arr xs) from rfl,
        getAttribute_setAttribute_self]
      rw [if_neg (jsonStringify_ne_empty (.arr xs))]
      rw [jsonParse_jsonStringify (.arr xs)]
      simp [Json.isNull, jsonTypeofObject, Json.isArr, jsonToValue]
  | obj fs =>
      simp only [constructorOf, Option.some.injEq] at hv
      subst hv
      simp only [descriptorFor, objectDescriptor, truthy, if_true,
        show jsonStringifyValue (JsValue.obj fs) = jsonStringify (.obj fs) from rfl,
        getAttribute_setAttribute_self]
      rw [if_neg (jsonStringify_ne_empty (.obj fs))]
      rw [jsonParse_jsonStringify (.obj fs)]
      simp [Json.isNull, jsonTypeofObject, Json.isArr, jsonToValue]
  | nul => simp [constructorOf] at hv
  | undef => simp [constructorOf] at hv
  | func => simp [constructorOf] at hv

/-! ### The claim C5 algorithm, as the spec words it

`specRunKebabCase` renders the claimed algorithm literally: a separator is
inserted before every maximal run of one-or-more uppercase letters that is
followed by end-of-string or a lowercase letter (never between letters
inside the run), then the same collapsing, stripping and lowercasing steps
are applied.  `amendedKebabCase` is the amended description: a separator
before every single uppercase letter that is immediately followed by
end-of-string or a lowercase letter, characterized positionally via
`withNext`. -/

/-- Worker for `specRunInsert`, structurally recursive on a fuel bound
(the input length always suffices, as every step consumes input). -/
def specRunInsertAux : Nat → List Char → List Char
  | 0, l => l
  | fuel + 1, l =>
      match l with
      | [] => []
      | c :: rest =>
          if c.isUpper then
            let run := List.takeWhile Char.isUpper (c :: rest)
            let tail := List.dropWhile Char.isUpper (c :: rest)
            if tail.head?.elim true Char.isLower then '-' :: (run ++ specRunInsertAux fuel tail)
            else run ++ specRunInsertAux fuel tail
          else c :: specRunInsertAux fuel rest

/-- Insert a separator before every maximal uppercase run followed by
end-of-string or a lowercase letter (the claimed algorithm, verbatim). -/
def specRunInsert (l : List Char) : List Char := specRunInsertAux l.length l

/-- The claimed normalization algorithm: run insertion, then the same
collapse, strip and lowercase steps. -/
def specRunKebabCase (key : String) : String :=
  String.mk ((stripEdge (collapseDouble (specRunInsert key.data))).map Char.toLower)

/-- Pair every character with its successor (or `none` at the end). -/
def withNext : List Char → List (Char × Option Char)
  | [] => []
  | [c] => [(c, none)]
  | c :: d :: rest => (c, some d) :: withNext (d :: rest)

/-- A word boundary of the code's regex: an uppercase letter immediately
followed by end-of-string or a lowercase letter. -/
def boundaryChar (c : Char) (next : Option Char) : Bool :=
  c.isUpper && next.elim true Char.isLower

/-- The amended insertion step: a separator before every single uppercase
letter at a word boundary. -/
def amendedInsert (l : List Char) : List Char :=
  (withNext l).flatMap (fun q => if boundaryChar q.1 q.2 then ['-', q.1] else [q.1])

/-- The amended normalization algorithm. -/
def amendedKebabCase (key : String) : String :=
  String.mk ((stripEdge (collapseDouble (amendedInsert key.data))).map Char.toLower)

theorem withNext_cons (c : Char) (t : List Char) :
    withNext (c :: t) = (c, t.head?) :: withNext t := by
  cases t <;> rfl

theorem amendedInsert_cons (c : Char) (t : List Char) :
    amendedInsert (c :: t)
      = (if boundaryChar c t.head? then ['-', c] else [c]) ++ amendedInsert t := by
  simp [amendedInsert, withNext_cons]

theorem isLower_isUpper_false (c : Char) (h : c.isLower = true) : c.isUpper = false := by
  simp only [Char.isLower, Bool.and_eq_true, decide_eq_true_eq] at h
  have h2 : ¬(c.val ≤ 90) := by
    intro hle
    have g1 : (97 : UInt32).toNat ≤ c.val.toNat := h.1
    have g2 : c.val.toNat ≤ (90 : UInt32).toNat := hle
    simp [UInt32.toNat] at g1 g2
    omega
  simp [Char.isUpper, h2]

theorem insertHyphens_eq_amendedInsert (l : List Char) :
    insertHyphens l = amendedInsert l := by
  match l with
  | [] => rfl
  | [c] =>
      rw [amendedInsert_cons]
      by_cases h : c.isUpper <;> simp [insertHyphens, boundaryChar, h, amendedInsert, withNext]
  | c :: d :: rest =>
      have ih1 := insertHyphens_eq_amendedInsert (d :: rest)
      have ih2 := insertHyphens_eq_amendedInsert rest
      rw [amendedInsert_cons]
      by_cases hc : c.isUpper
      · by_cases hd : d.isLower
        · rw [show insertHyphens (c :: d :: rest) = '-' :: c :: d :: insertHyphens rest from by
            simp [insertHyphens, hc, hd]]
          rw [amendedInsert_cons]
          simp [boundaryChar, hc, hd, isLower_isUpper_false d hd, ih2, List.head?_cons]
        · rw [show insertHyphens (c :: d :: rest) = c :: insertHyphens (d :: rest) from by
            simp [insertHyphens, hc, hd]]
          simp [boundaryChar, hc, hd, ih1]
      · rw [show insertHyphens (c :: d :: rest) = c :: insertHyphens (d :: rest) from by
          simp [insertHyphens, hc]]
        simp [boundaryChar, hc, ih1]

/-! ## The claims -/

/-- C1: For every declaration of each of the five kinds, binding a fresh
instance whose element does not have the normalized attribute leaves the
property reading the declared default value and writes that default into
the normalized attribute via the installed setter — the bound component is
literally the installed setter applied to the default — except a Boolean
declaration with default `false`, for which the attribute is not
created. -/
theorem c1_fresh_instance_defaults (name : String) (v : JsValue) (k : Kind) (p : String)
    (c : Component) (hv : constructorOf v = some k)
    (hp : mustParameterize name = .ok p) (habs : c.hasAttribute p = false) :
    ∃ c', initializeAttributable [(name, v)] c = .ok c'
      ∧ c' = (descriptorFor k p).set v (defineProperty c name k p)
      ∧ readProp c' name = some (.ok v)
      ∧ (v = JsValue.bool false → c'.hasAttribute p = false)
      ∧ (v ≠ JsValue.bool false → c'.hasAttribute p = true) := by
  refine ⟨_,
    initializeAttributable_single name v k p c (classify_of_constructorOf v k hv) hp habs,
    rfl, ?_, ?_, ?_⟩
  · simp only [readProp, props_descriptorSet, props_defineProperty]
    rw [List.find?_cons_of_pos _ (by simp)]
    show some ((descriptorFor k p).get
      ((descriptorFor k p).set v (defineProperty c name k p))) = some (Except.ok v)
    rw [descriptor_get_set k p v hv]
  · intro hbf
    subst hbf
    simp only [constructorOf, Option.some.injEq] at hv
    subst hv
    simp [descriptorFor, booleanDescriptor, truthy, hasAttribute_toggle_self]
  · intro hne
    cases v with
    | num n =>
        simp only [constructorOf, Option.some.injEq] at hv
        subst hv
        simp [descriptorFor, numberDescriptor, hasAttribute_setAttribute_self]
    | nan =>
        simp only [constructorOf, Option.some.injEq] at hv
        subst hv
        simp [descriptorFor, numberDescriptor, hasAttribute_setAttribute_self]
    | bool b =>
        simp only [constructorOf, Option.some.injEq] at hv
        subst hv
        cases b with
        | true => simp [descriptorFor, booleanDescriptor, truthy, hasAttribute_toggle_self]
        | false => exact absurd rfl hne
    | str s =>
        simp only [constructorOf, Option.some.injEq] at hv
        subst hv
        simp [descriptorFor, stringDescriptor, hasAttribute_setAttribute_self]
    | arr xs =>
        simp only [constructorOf, Option.some.injEq] at hv
        subst hv
        simp [descriptorFor, arrayDescriptor, hasAttribute_setAttribute_self]
    | obj fs =>
        simp only [constructorOf, Option.some.injEq] at hv
        subst hv
        simp [descriptorFor, objectDescriptor, hasAttribute_setAttribute_self]
    | nul => simp [constructorOf] at hv
    | undef => simp [constructorOf] at hv
    | func => simp [constructorOf] at hv

/-- Witness for C1 at a concrete input: a Number declaration with default
123 on a fresh element. -/
theorem c1_witness :
    ∃ c', initializeAttributable [("testNumber", JsValue.num 123)] ⟨[], [], []⟩ = .ok c'
      ∧ c' = (descriptorFor .num "test-number").set (JsValue.num 123)
          (defineProperty ⟨[], [], []⟩ "testNumber" .num "test-number")
      ∧ readProp c' "testNumber" = some (.ok (JsValue.num 123))
      ∧ (JsValue.num 123 = JsValue.bool false → c'.hasAttribute "test-number" = false)
      ∧ (JsValue.num 123 ≠ JsValue.bool false → c'.hasAttribute "test-number" = true) :=
  c1_fresh_instance_defaults "testNumber" (JsValue.num 123) .num "test-number"
    ⟨[], [], []⟩ rfl rfl rfl

/-- C2: For every declaration, if the element already has the normalized
attribute when bind runs, the binder does not invoke the setter with the
declared default (the result is exactly the accessor installation, the
attribute map unchanged), and the property subsequently reads the
attribute's decoded value (the installed getter over the pre-existing
attribute store) rather than the declared default. -/
theorem c2_attribute_present_precedence (name : String) (v : JsValue) (k : Kind)
    (p : String) (c : Component) (hcl : classify v = some k)
    (hp : mustParameterize name = .ok p) (hat : c.hasAttribute p = true) :
    initializeAttributable [(name, v)] c = .ok (defineProperty c name k p)
    ∧ (defineProperty c name k p).attrs = c.attrs
    ∧ readProp (defineProperty c name k p) name = some ((descriptorFor k p).get c) := by
  refine ⟨initializeAttributable_single_present name v k p c hcl hp hat, rfl, ?_⟩
  simp only [readProp, props_defineProperty]
  rw [List.find?_cons_of_pos _ (by simp)]
  show some ((descriptorFor k p).get (defineProperty c name k p))
    = some ((descriptorFor k p).get c)
  rw [get_defineProperty]

/-- Witness for C2 at a concrete input: markup attribute
`test-number="456"` beats the declared default 123, and the property reads
the decoded 456. -/
theorem c2_witness :
    (initializeAttributable [("testNumber", JsValue.num 123)] ⟨[("test-number", "456")], [], []⟩
        = .ok (defineProperty ⟨[("test-number", "456")], [], []⟩ "testNumber" .num "test-number")
      ∧ (defineProperty ⟨[("test-number", "456")], [], []⟩ "testNumber" .num "test-number").attrs
        = [("test-number", "456")]
      ∧ readProp (defineProperty ⟨[("test-number", "456")], [], []⟩ "testNumber" .num "test-number")
          "testNumber"
        = some ((descriptorFor .num "test-number").get ⟨[("test-number", "456")], [], []⟩))
    ∧ (descriptorFor .num "test-number").get ⟨[("test-number", "456")], [], []⟩
        = .ok (JsValue.num 456) :=
  ⟨c2_attribute_present_precedence "testNumber" (JsValue.num 123) .num "test-number"
    ⟨[("test-number", "456")], [], []⟩ rfl rfl rfl, rfl⟩

/-- C3: The decode-encode round trip of the installed accessors.  For
Number, String, Array and PlainObject kinds, writing a value of the kind
through the installed setter and reading back through the installed getter
returns that value.  For Boolean, the value is attribute presence alone:
after the attribute text is set to any non-empty string (including the
literal `"false"`) the getter returns `true`, and it returns `false`
exactly when the attribute is absent. -/
theorem c3_roundtrip :
    (∀ (p : String) (c : Component) (n : Int),
      (numberDescriptor p).get ((numberDescriptor p).set (.num n) c) = .ok (.num n))
    ∧ (∀ (p : String) (c : Component) (s : String),
      (stringDescriptor p).get ((stringDescriptor p).set (.str s) c) = .ok (.str s))
    ∧ (∀ (p : String) (c : Component) (xs : List Json),
      (arrayDescriptor p).get ((arrayDescriptor p).set (.arr xs) c) = .ok (.arr xs))
    ∧ (∀ (p : String) (c : Component) (fs : List (String × Json)),
      (objectDescriptor p).get ((objectDescriptor p).set (.obj fs) c) = .ok (.obj fs))
    ∧ (∀ (p : String) (c : Component) (t : String), t ≠ "" →
      (booleanDescriptor p).get (c.setAttribute p t) = .ok (.bool true))
    ∧ (∀ (p : String) (c : Component),
      (booleanDescriptor p).get c = .ok (.bool false) ↔ c.hasAttribute p = false) := by
  refine ⟨fun p c n => descriptor_get_set .num p (.num n) rfl c,
    fun p c s => descriptor_get_set .str p (.str s) rfl c,
    fun p c xs => descriptor_get_set .arr p (.arr xs) rfl c,
    fun p c fs => descriptor_get_set .obj p (.obj fs) rfl c,
    fun p c t _ => ?_, fun p c => ?_⟩
  · simp [booleanDescriptor, hasAttribute_setAttribute_self]
  · cases h : c.hasAttribute p <;> simp [booleanDescriptor, h]

/-- Witness for C3 at concrete inputs: an array round trip and the Boolean
attribute text `"false"` decoding to `true`. -/
theorem c3_witness :
    (arrayDescriptor "test-array").get
      ((arrayDescriptor "test-array").set (.arr [Json.num 1, Json.num 2, Json.num 3])
        ⟨[], [], []⟩) = .ok (.arr [Json.num 1, Json.num 2, Json.num 3])
    ∧ (booleanDescriptor "test-bool").get
      ((⟨[], [], []⟩ : Component).setAttribute "test-bool" "false") = .ok (.bool true) :=
  ⟨c3_roundtrip.2.2.1 "test-array" ⟨[], [], []⟩ [Json.num 1, Json.num 2, Json.num 3],
    c3_roundtrip.2.2.2.2.1 "test-bool" ⟨[], [], []⟩ "false" (by decide)⟩

/-- C4: Decode-shape mismatches fail at property-read time, surfaced to
the caller of the getter.  If the attribute text JSON-decodes to anything
that is not an array, the Array getter returns a `TypeError`; if it
decodes to an array, `null`, or a non-object, the PlainObject getter
returns a `TypeError`. -/
theorem c4_decode_shape_mismatch (p : String) (c : Component) (t : String) (v : Json)
    (hat : c.getAttribute p = some t) (hne : t ≠ "") (hparse : jsonParse t = some v) :
    (v.isArr = false → (arrayDescriptor p).get c = .error .typeError)
    ∧ (v.isObj = false → (objectDescriptor p).get c = .error .typeError) := by
  constructor
  · intro hna
    have hcond : (v.isNull || !(jsonTypeofObject v) || !(v.isArr)) = true := by
      cases v <;> simp_all [Json.isNull, jsonTypeofObject, Json.isArr]
    simp [arrayDescriptor, hat, hne, hparse, hcond]
    intro _ _
    exact hna
  · intro hno
    have hcond : (v.isNull || !(jsonTypeofObject v) || v.isArr) = true := by
      cases v <;> simp_all [Json.isNull, jsonTypeofObject, Json.isArr, Json.isObj]
    simp [objectDescriptor, hat, hne, hparse, hcond]
    intro h1 h2
    simp [h1, h2] at hcond
    exact hcond

/-- Witness for C4 at a concrete input: attribute text `5` decodes to a
number, so both shaped getters throw a `TypeError`. -/
theorem c4_witness :
    ((Json.num 5).isArr = false →
      (arrayDescriptor "test-array").get ⟨[("test-array", "5")], [], []⟩
        = .error .typeError)
    ∧ ((Json.num 5).isObj = false →
      (objectDescriptor "test-array").get ⟨[("test-array", "5")], [], []⟩
        = .error .typeError) :=
  c4_decode_shape_mismatch "test-array" ⟨[("test-array", "5")], [], []⟩ "5"
    (Json.num 5) rfl (by decide) rfl

/-- C5 counterexample: the claimed algorithm — a separator before every
maximal run of uppercase letters followed by end-of-string or a lowercase
letter, never between letters of the run — disagrees with the code at
`URLBar`: the code's normalizer yields `url-bar` (the regex puts the
separator before the single capital `B`, inside the `URLB` run), while the
claimed run-based algorithm yields `urlbar`. -/
theorem c5_counterexample :
    toKebabCase "URLBar" = "url-bar"
    ∧ specRunKebabCase "URLBar" = "urlbar"
    ∧ ("url-bar" : String) ≠ "urlbar" := ⟨by decide, by decide, by decide⟩

/-- C5 (amended): the name normalizer computes its result by inserting a
separator before every single uppercase letter that is immediately
followed by end-of-string or a lowercase letter (so within an uppercase
run only the letter that starts the final word gets a separator), then
replacing each non-overlapping pair of adjacent separators with one (left
to right), removing one leading separator or else one trailing separator,
and lowercasing the whole result. -/
theorem c5_amended_normalizer (key : String) : toKebabCase key = amendedKebabCase key := by
  rw [toKebabCase, amendedKebabCase, insertHyphens_eq_amendedInsert]

/-- C6: The name normalizer maps `fooBarBazBing` to `foo-bar-baz-bing`,
`URLBar` to `url-bar`, `ClipX` to `clip-x`, and for every input whose
normalized form contains no separator it fails with the naming error
instead of returning a name. -/
theorem c6_name_normalization :
    mustKebabCase "fooBarBazBing" = .ok "foo-bar-baz-bing"
    ∧ mustKebabCase "URLBar" = .ok "url-bar"
    ∧ mustKebabCase "ClipX" = .ok "clip-x"
    ∧ ∀ key, (toKebabCase key).data.contains '-' = false →
        mustKebabCase key = .error .namingError := by
  refine ⟨rfl, rfl, rfl, fun key h => ?_⟩
  have h2 : '-' ∉ (toKebabCase key).data := by simpa using h
  simp [mustKebabCase, h2]

/-- Witness for C6's universal part at the concrete input `foo`, whose
normalized form has no separator. -/
theorem c6_witness : mustKebabCase "foo" = .error .namingError :=
  c6_name_normalization.2.2.2 "foo" (by decide)

/-- C7 (code bug): the binder never routes through an author-defined
accessor pair.  The repository's own test declares
`@attribute({type: String}) set testGetterSetter ...` and asserts the
author's getter/setter run once at mount and once per access, but (a) the
`attribute` decorator rejects any non-field context, so the test's
declaration on a setter throws at class definition, and (b) for a bound
string declaration the binder installs an attribute-backed accessor whose
reads and writes go to the attribute store directly, with no author
accessor involved. -/
theorem c7_author_accessors_bypassed :
    attributeDecorator .str ⟨DecoratorKind.setter, "testGetterSetter"⟩ = .error .typeError
    ∧ initializeAttributable [("testGetterSetter", .str "baz")] ⟨[], [], []⟩
        = .ok ⟨[("test-getter-setter", "baz")],
            [("testGetterSetter", .str, "test-getter-setter")], []⟩
    ∧ readProp ⟨[("test-getter-setter", "baz")],
          [("testGetterSetter", .str, "test-getter-setter")], []⟩ "testGetterSetter"
        = some ((stringDescriptor "test-getter-setter").get
            ⟨[("test-getter-setter", "baz")],
              [("testGetterSetter", .str, "test-getter-setter")], []⟩) :=
  ⟨rfl, rfl, rfl⟩

/-- C8: For every declaration whose initial value's runtime shape matches
none of the five supported kinds (the classification of lines 17-27 finds
no branch), the binder fails with a `TypeError` at installation time
instead of installing an accessor. -/
theorem c8_unsupported_kind (name : String) (v : JsValue) (p : String) (c : Component)
    (hcl : classify v = none) (hp : mustParameterize name = .ok p) :
    initializeAttributable [(name, v)] c = .error .typeError := by
  simp [initializeAttributable, hp, hcl]

/-- Witness for C8 at a concrete input: an `undefined` initial value. -/
theorem c8_witness :
    initializeAttributable [("fooBar", JsValue.undef)] ⟨[], [], []⟩ = .error .typeError :=
  c8_unsupported_kind "fooBar" JsValue.undef "foo-bar" ⟨[], [], []⟩ rfl rfl

/-- C9 counterexample: with a declared nominal type `Number` and a
mismatching initial value `"foo"`, the class-declaration-time step (the
decorator application, which never sees the initial value) succeeds
without throwing; the `TypeError` is raised only by the registered field
initializer when it runs with the value — that is, at instance field
initialization, not at class-declaration time before any instance
exists. -/
theorem c9_counterexample :
    (attributeDecorator .num ⟨DecoratorKind.field, "testNumber"⟩).isOk = true
    ∧ attributeInitializer .num "testNumber" (.str "foo") [] = .error .typeError :=
  ⟨rfl, rfl⟩

/-- C9 (amended): for every per-property declaration carrying an explicit
type token and a defined initial value whose constructor is not equal to
the declared nominal type, the registered field initializer throws a type
error when it runs (at instance field initialization), before anything is
recorded in the registry; the decorator application at class-declaration
time performs only the field-kind check and does not throw. -/
theorem c9_amended_mismatch (ty : Kind) (name : String) (v : JsValue)
    (reg : List (String × JsValue)) (hdef : v.isUndef = false)
    (hmis : constructorOf v ≠ some ty) :
    attributeInitializer ty name v reg = .error .typeError
    ∧ (attributeDecorator ty ⟨DecoratorKind.field, name⟩).isOk = true := by
  refine ⟨?_, rfl⟩
  simp [attributeInitializer, hdef, hmis]

/-- Witness for the amended C9 at a concrete input. -/
theorem c9_witness :
    attributeInitializer .num "testNumber" (.str "foo") [] = .error .typeError
    ∧ (attributeDecorator .num ⟨DecoratorKind.field, "testNumber"⟩).isOk = true :=
  c9_amended_mismatch .num "testNumber" (.str "foo") [] rfl (by decide)

/-- C10: when a declaration's field has no initial value (the initializer
receives `undefined`), the constructor-equality validation is skipped (the
initializer succeeds for every declared type) and the declaration appends
the declared type's zero value to the registry: 0 for Number, `false` for
Boolean, the empty string for String, the empty array for Array and the
empty object for PlainObject. -/
theorem c10_zero_value_defaults (ty : Kind) (name : String)
    (reg : List (String × JsValue)) :
    attributeInitializer ty name .undef reg = .ok (reg ++ [(name, zeroValue ty)])
    ∧ zeroValue .num = .num 0
    ∧ zeroValue .bool = .bool false
    ∧ zeroValue .str = .str ""
    ∧ zeroValue .arr = .arr []
    ∧ zeroValue .obj = .obj [] :=
  ⟨rfl, rfl, rfl, rfl, rfl, rfl⟩
